import Mathlib

/-!
Verification of the buffered pattern-matching read engine of go-ssh-lib.

The Go sources (sshlib.go: `ReadUntil`, `ReadUntilRegex`, `ReadUntilRegexList`,
`GetData`, `Write`; the agent file: `Connect`, `SendCommand`,
`SendCommandNoWait`, `SendCommandStripCommand`, `SendCommandWaitForList`) are
shallowly embedded below.  Go strings are modelled as `List Char`; the poll
loop's wall-clock deadline (`getTimestamp() - startTime < timeoutMs`) is
abstracted by a fuel argument counting how many loop iterations the time
budget allows; the `Data` channel fed by the background `reader` goroutine is
abstracted by a schedule: one entry per `GetData` poll, `some chunk` when the
channel has data ready and `none` when the non-blocking `select` falls into
its sleeping default branch.
-/

namespace SshLib

/-- The error values of the library (`ErrNoMatch`, `ErrNoConnection`,
`ErrLostConnection`, `ErrNoPrompt` in sshlib.go; an error returned by
`regexp.Compile` is collapsed into `invalidPattern`). -/
inductive SshErr where
  | noMatch
  | invalidPattern
  | noConnection
  | lostConnection
  | noPrompt
deriving DecidableEq

/-- Boolean test that the first list is an initial segment of the second. -/
def isPrefixList : List Char → List Char → Bool
  | [], _ => true
  | _ :: _, [] => false
  | a :: as, b :: bs => a == b && isPrefixList as bs

/-- Go `strings.Index(s, sub)`: index of the first occurrence of `sub` inside
`s` (`none` models Go's `-1`). -/
def strIndex : List Char → List Char → Option Nat
  | [], sub => if sub.isEmpty then some 0 else none
  | c :: s, sub =>
    if isPrefixList sub (c :: s) then some 0 else (strIndex s sub).map (· + 1)

/-- Go `strings.Contains(s, sub)`. -/
def containsStr (s sub : List Char) : Bool :=
  (strIndex s sub).isSome

/-- A compiled Go regexp, abstracted by its `FindStringIndex` behaviour: the
(start, end) span of the leftmost match in the given string, or `none` when
the pattern does not match.  `regexp` is an external library of which the
repository uses only `MatchString` and `FindStringIndex`, so this is the whole
interface the code needs. -/
structure Regexp where
  find : List Char → Option (Nat × Nat)

/-- Go `(*Regexp).MatchString`. -/
def Regexp.MatchString (re : Regexp) (s : List Char) : Bool :=
  (re.find s).isSome

/-- The connection-level state touched by the read/write calls of `SSHLib`:
`Buffer` is the accumulated not-yet-consumed output (`s.Buffer`), `sched`
abstracts the `Data` channel (see the file comment), `written` abstracts the
bytes written to `Stdin`. -/
structure Conn where
  Buffer : List Char
  sched : List (Option (List Char))
  written : List Char
deriving DecidableEq

/-- `GetData`: pull one chunk from the `Data` channel if one is ready and
append it to the buffer; otherwise sleep for the poll quantum. -/
def GetData (c : Conn) : Conn :=
  match c.sched with
  | [] => c
  | none :: rest => { c with sched := rest }
  | some d :: rest => { c with Buffer := c.Buffer ++ d, sched := rest }

/-- `Write`: writes the string plus a newline to the socket (`Stdin`). -/
def Write (c : Conn) (str : List Char) : Conn :=
  { c with written := c.written ++ str ++ ['\n'] }

/-- The poll loop of `ReadUntil`: while the deadline has not passed, if the
buffer contains the target, split at `strings.Index` + target length and stop;
else `GetData` and retry.  Returns `(foundMatch, returnData, conn)`. -/
def ReadUntilLoop (str : List Char) : Nat → Conn → Bool × List Char × Conn
  | 0, c => (false, [], c)
  | fuel + 1, c =>
    if containsStr c.Buffer str then
      let endRead := (strIndex c.Buffer str).getD 0
      (true, c.Buffer.take (endRead + str.length),
       { c with Buffer := c.Buffer.drop endRead })
    else
      ReadUntilLoop str fuel (GetData c)

/-- The epilogue shared verbatim by the three read functions: if `returnData`
is still the empty string, return the whole buffer and clear it; the error is
`ErrNoMatch` exactly when no match was found. -/
def finishRead : Bool × List Char × Conn → List Char × Option SshErr × Conn
  | (foundMatch, returnData, c) =>
    let p :=
      if returnData = [] then (c.Buffer, { c with Buffer := ([] : List Char) })
      else (returnData, c)
    (p.1, if foundMatch then none else some SshErr.noMatch, p.2)

/-- `ReadUntil(str, timeout)`. -/
def ReadUntil (str : List Char) (fuel : Nat) (c : Conn) :
    List Char × Option SshErr × Conn :=
  finishRead (ReadUntilLoop str fuel c)

/-- The poll loop of `ReadUntilRegex`: on a match, `endRead` is the end offset
reported by `FindStringIndex` and the buffer is truncated there. -/
def ReadUntilRegexLoop (cmpRe : Regexp) : Nat → Conn → Bool × List Char × Conn
  | 0, c => (false, [], c)
  | fuel + 1, c =>
    if cmpRe.MatchString c.Buffer then
      let endRead := ((cmpRe.find c.Buffer).getD (0, 0)).2
      (true, c.Buffer.take endRead, { c with Buffer := c.Buffer.drop endRead })
    else
      ReadUntilRegexLoop cmpRe fuel (GetData c)

/-- `ReadUntilRegex(regexStr, timeout)`.  The `cmp` argument is the outcome of
`regexp.Compile(regexStr)`: `none` models a compile error, on which the Go
code returns `("", err)` before entering the loop. -/
def ReadUntilRegex (cmp : Option Regexp) (fuel : Nat) (c : Conn) :
    List Char × Option SshErr × Conn :=
  match cmp with
  | none => ([], some SshErr.invalidPattern, c)
  | some cmpRe => finishRead (ReadUntilRegexLoop cmpRe fuel c)

/-- The inner `for` loop of `ReadUntilRegexList` over `cmpReList` during one
poll.  A `none` entry is the nil `*Regexp` produced by a failed
`regexp.Compile` whose error was discarded and which was appended anyway;
calling `MatchString` on it dereferences a nil pointer, modelled by the `none`
result (runtime panic).  The loop has no `break`: every pattern is tested in
list order, each matching one overwriting `returnData` and truncating the
buffer that the following patterns are then tested against. -/
def scanPatterns :
    List (Option Regexp) → Bool × List Char × List Char →
      Option (Bool × List Char × List Char)
  | [], st => some st
  | none :: _, _ => none
  | some cmpRe :: rest, (foundMatch, returnData, buf) =>
    if cmpRe.MatchString buf then
      let endRead := ((cmpRe.find buf).getD (0, 0)).2
      scanPatterns rest (true, buf.take endRead, buf.drop endRead)
    else
      scanPatterns rest (foundMatch, returnData, buf)

/-- The outer poll loop of `ReadUntilRegexList`: while no match was found and
the deadline has not passed, scan all patterns, then `GetData` if still no
match. -/
def ReadUntilRegexListLoop (cmpReList : List (Option Regexp)) :
    Nat → Bool × List Char × Conn → Option (Bool × List Char × Conn)
  | 0, st => some st
  | fuel + 1, (foundMatch, returnData, c) =>
    if foundMatch then some (foundMatch, returnData, c)
    else
      match scanPatterns cmpReList (foundMatch, returnData, c.Buffer) with
      | none => none
      | some (f2, rd2, b2) =>
        ReadUntilRegexListLoop cmpReList fuel
          (f2, rd2,
            if f2 then { c with Buffer := b2 } else GetData { c with Buffer := b2 })

/-- `ReadUntilRegexList(regexList, timeout)`.  The argument is the list of
`regexp.Compile` outcomes of the pattern strings, in order (the Go code
compiles them up front, discarding errors and appending the — possibly nil —
pointers). -/
def ReadUntilRegexList (cmpReList : List (Option Regexp)) (fuel : Nat)
    (c : Conn) : Option (List Char × Option SshErr × Conn) :=
  (ReadUntilRegexListLoop cmpReList fuel (false, [], c)).map finishRead

/-- The `SSHAgent` state.  `promptRegex` holds the `regexp.Compile` outcome of
the `PromptRegex` string; `openOutcome` abstracts the network side of
`Open()`: the connection state a successful `Open` would establish, or `none`
when `Open` fails (`ErrNoConnection` / `ErrNoPrompt`). -/
structure SSHAgent where
  promptRegex : Option Regexp
  Timeout : Nat
  Connected : Bool
  conn : Conn
  openOutcome : Option Conn

/-- `Connect`: if not yet connected, attempt `Open()` and set the flag on
success. -/
def Connect (a : SSHAgent) : SSHAgent × Option SshErr :=
  if a.Connected = false then
    match a.openOutcome with
    | none => (a, some SshErr.noConnection)
    | some c0 => ({ a with Connected := true, conn := c0 }, none)
  else
    (a, none)

/-- `SendCommandNoWait`: reconnect if needed (mapping any failure to
`ErrLostConnection`), then write the command. -/
def SendCommandNoWait (a : SSHAgent) (command : List Char) :
    SSHAgent × Option SshErr :=
  match Connect a with
  | (a2, some _) => (a2, some SshErr.lostConnection)
  | (a2, none) => ({ a2 with conn := Write a2.conn command }, none)

/-- `SendCommand`: write the command, then read until the prompt regexp,
discarding the read's error (`output, _ := ...; return output, nil`). -/
def SendCommand (a : SSHAgent) (command : List Char) :
    SSHAgent × List Char × Option SshErr :=
  match SendCommandNoWait a command with
  | (a2, some _) => (a2, [], some SshErr.lostConnection)
  | (a2, none) =>
    let r := ReadUntilRegex a2.promptRegex a2.Timeout a2.conn
    ({ a2 with conn := r.2.2 }, r.1, none)

/-- Go `strings.Split(s, "\n")`. -/
def splitNl : List Char → List (List Char)
  | [] => [[]]
  | ch :: s =>
    if ch = '\n' then [] :: splitNl s
    else
      match splitNl s with
      | [] => [[ch]]
      | l :: ls => (ch :: l) :: ls

/-- Go `strings.Join(ls, "\n")`. -/
def joinNl : List (List Char) → List Char
  | [] => []
  | [l] => l
  | l :: ls => l ++ '\n' :: joinNl ls

/-- The first line of a string: everything before the first newline (the
whole string when it has no newline). -/
def firstLine : List Char → List Char
  | [] => []
  | ch :: s => if ch = '\n' then [] else ch :: firstLine s

/-- `SendCommandStripCommand`: like `SendCommand`, then drop the first line of
the output when it contains the command text. -/
def SendCommandStripCommand (a : SSHAgent) (command : List Char) :
    SSHAgent × List Char × Option SshErr :=
  match SendCommand a command with
  | (a2, _, some e) => (a2, [], some e)
  | (a2, output, none) =>
    match splitNl output with
    | [] => (a2, output, none)
    | l0 :: rest =>
      if containsStr l0 command then (a2, joinNl rest, none)
      else (a2, output, none)

/-- `SendCommandWaitForList`: write the command, then read until the first
match among the caller's patterns with the prompt regexp appended last. -/
def SendCommandWaitForList (a : SSHAgent) (command : List Char)
    (regexList : List (Option Regexp)) :
    Option (SSHAgent × List Char × Option SshErr) :=
  match SendCommandNoWait a command with
  | (a2, some e) => some (a2, [], some e)
  | (a2, none) =>
    match ReadUntilRegexList (regexList ++ [a2.promptRegex]) a2.Timeout a2.conn with
    | none => none
    | some (output, err, c2) => some ({ a2 with conn := c2 }, output, err)

/-- The `regexp.Compile` outcome of a pattern that is a plain literal (no
metacharacters): its leftmost match is the first occurrence of the literal. -/
def litRe (t : List Char) : Regexp :=
  ⟨fun s => (strIndex s t).map (fun i => (i, i + t.length))⟩

/-- The `regexp.Compile` outcome of the pattern `a*`: it matches every string
at offset 0, greedily covering the leading run of a-characters. -/
def aStar : Regexp :=
  ⟨fun s => some (0, (s.takeWhile (fun ch => ch == 'a')).length)⟩

/-- A connected agent whose prompt regexp is the literal `$`, with `ok$`
pending in the buffer. -/
def agentW : SSHAgent :=
  ⟨some (litRe ['$']), 1, true, ⟨['o', 'k', '$'], [], []⟩, none⟩

/-- A connected agent whose buffer holds an echoed `ls` command line followed
by output and the prompt. -/
def agentEcho : SSHAgent :=
  ⟨some (litRe ['$']), 1, true, ⟨['l', 's', '\n', 'f', '$'], [], []⟩, none⟩

/-- A disconnected agent whose reconnection succeeds, with promptless output
`abc` pending, so a prompt read times out with `ErrNoMatch`. -/
def agentReconn : SSHAgent :=
  ⟨some (litRe ['$']), 1, false, ⟨[], [], []⟩, some ⟨['a', 'b', 'c'], [], []⟩⟩

/-! ## Helper lemmas -/

theorem isPrefixList_take (p : List Char) :
    ∀ l : List Char, isPrefixList p l = true → l.take p.length = p := by
  induction p with
  | nil => intro l _; rfl
  | cons a as ih =>
    intro l h
    cases l with
    | nil => simp [isPrefixList] at h
    | cons b bs =>
      simp only [isPrefixList, Bool.and_eq_true, beq_iff_eq] at h
      obtain ⟨hab, hrest⟩ := h
      simp only [List.length_cons, List.take_succ_cons]
      rw [ih bs hrest, hab]

theorem isPrefixList_length (p l : List Char) (h : isPrefixList p l = true) :
    p.length ≤ l.length := by
  have hlen := congrArg List.length (isPrefixList_take p l h)
  simp only [List.length_take] at hlen
  omega

theorem strIndex_some_le (sub : List Char) :
    ∀ (s : List Char) (i : Nat), strIndex s sub = some i → i ≤ s.length := by
  intro s
  induction s with
  | nil =>
    intro i h
    simp only [strIndex] at h
    split at h
    · cases h; omega
    · cases h
  | cons c s ih =>
    intro i h
    simp only [strIndex] at h
    split at h
    · cases h; omega
    · simp only [Option.map_eq_some'] at h
      obtain ⟨j, hj, rfl⟩ := h
      have := ih j hj
      simp only [List.length_cons]
      omega

theorem strIndex_occurrence (sub : List Char) :
    ∀ (s : List Char) (i : Nat), strIndex s sub = some i →
      isPrefixList sub (s.drop i) = true := by
  intro s
  induction s with
  | nil =>
    intro i h
    simp only [strIndex] at h
    split at h
    next hemp =>
      cases h
      simp only [List.isEmpty_iff] at hemp
      subst hemp
      rfl
    next => cases h
  | cons c s ih =>
    intro i h
    simp only [strIndex] at h
    split at h
    next hpre => cases h; exact hpre
    next =>
      simp only [Option.map_eq_some'] at h
      obtain ⟨j, hj, rfl⟩ := h
      simpa using ih j hj

theorem strIndex_bound (s sub : List Char) (i : Nat)
    (h : strIndex s sub = some i) : i + sub.length ≤ s.length := by
  have h1 := strIndex_some_le sub s i h
  have h2 := isPrefixList_length sub (s.drop i) (strIndex_occurrence sub s i h)
  simp only [List.length_drop] at h2
  omega

theorem strIndex_nil_sub (s : List Char) : strIndex s [] = some 0 := by
  cases s <;> simp [strIndex, isPrefixList]

theorem readUntilLoop_not_found (str : List Char) :
    ∀ (fuel : Nat) (c : Conn), (ReadUntilLoop str fuel c).1 = false →
      (ReadUntilLoop str fuel c).2.1 = [] := by
  intro fuel
  induction fuel with
  | zero => intro c _; rfl
  | succ n ih =>
    intro c h
    by_cases hc : containsStr c.Buffer str = true
    · simp [ReadUntilLoop, hc] at h
    · simp only [ReadUntilLoop, hc, if_false] at h ⊢
      exact ih (GetData c) h

theorem readUntilRegexLoop_not_found (cmpRe : Regexp) :
    ∀ (fuel : Nat) (c : Conn), (ReadUntilRegexLoop cmpRe fuel c).1 = false →
      (ReadUntilRegexLoop cmpRe fuel c).2.1 = [] := by
  intro fuel
  induction fuel with
  | zero => intro c _; rfl
  | succ n ih =>
    intro c h
    by_cases hc : cmpRe.MatchString c.Buffer = true
    · simp [ReadUntilRegexLoop, hc] at h
    · simp only [ReadUntilRegexLoop, hc, if_false] at h ⊢
      exact ih (GetData c) h

theorem scanPatterns_found :
    ∀ (ps : List (Option Regexp)) (rd b : List Char)
      (st : Bool × List Char × List Char),
      scanPatterns ps (true, rd, b) = some st → st.1 = true := by
  intro ps
  induction ps with
  | nil =>
    intro rd b st h
    simp only [scanPatterns, Option.some.injEq] at h
    rw [← h]
  | cons o rest ih =>
    intro rd b st h
    cases o with
    | none => simp [scanPatterns] at h
    | some cmpRe =>
      by_cases hm : cmpRe.MatchString b = true
      · simp only [scanPatterns, hm, if_true] at h
        exact ih _ _ st h
      · simp only [scanPatterns, hm, if_false] at h
        exact ih _ _ st h

theorem scanPatterns_none_found :
    ∀ (ps : List (Option Regexp)) (rd b rd2 b2 : List Char),
      scanPatterns ps (false, rd, b) = some (false, rd2, b2) →
      rd2 = rd ∧ b2 = b := by
  intro ps
  induction ps with
  | nil =>
    intro rd b rd2 b2 h
    simp only [scanPatterns, Option.some.injEq, Prod.mk.injEq] at h
    exact ⟨h.2.1.symm, h.2.2.symm⟩
  | cons o rest ih =>
    intro rd b rd2 b2 h
    cases o with
    | none => simp [scanPatterns] at h
    | some cmpRe =>
      by_cases hm : cmpRe.MatchString b = true
      · simp only [scanPatterns, hm, if_true] at h
        have := scanPatterns_found rest _ _ _ h
        simp at this
      · simp only [scanPatterns, hm, if_false] at h
        exact ih rd b rd2 b2 h

theorem listLoop_found (ps : List (Option Regexp)) (fuel : Nat)
    (rd : List Char) (c : Conn) (st : Bool × List Char × Conn)
    (h : ReadUntilRegexListLoop ps fuel (true, rd, c) = some st) :
    st.1 = true := by
  cases fuel with
  | zero =>
    simp only [ReadUntilRegexListLoop, Option.some.injEq] at h
    rw [← h]
  | succ n =>
    simp only [ReadUntilRegexListLoop, if_true, Option.some.injEq] at h
    rw [← h]

theorem listLoop_not_found (ps : List (Option Regexp)) :
    ∀ (fuel : Nat) (c : Conn) (f : Bool) (rd2 : List Char) (c2 : Conn),
      ReadUntilRegexListLoop ps fuel (false, [], c) = some (f, rd2, c2) →
      f = false → rd2 = [] := by
  intro fuel
  induction fuel with
  | zero =>
    intro c f rd2 c2 h _
    simp only [ReadUntilRegexListLoop, Option.some.injEq, Prod.mk.injEq] at h
    exact h.2.1.symm
  | succ n ih =>
    intro c f rd2 c2 h hf
    rw [ReadUntilRegexListLoop] at h
    simp only [Bool.false_eq_true, if_false] at h
    cases hscan : scanPatterns ps (false, [], c.Buffer) with
    | none => rw [hscan] at h; cases h
    | some st =>
      obtain ⟨f2, rd3, b3⟩ := st
      rw [hscan] at h
      cases f2 with
      | true =>
        simp only [if_true] at h
        have := listLoop_found ps n rd3 _ _ h
        rw [hf] at this
        cases this
      | false =>
        obtain ⟨hrd3, _⟩ := scanPatterns_none_found ps [] c.Buffer rd3 b3 hscan
        subst hrd3
        simp only [Bool.false_eq_true, if_false] at h
        exact ih _ f rd2 c2 h hf

theorem GetData_written (c : Conn) : (GetData c).written = c.written := by
  obtain ⟨buf, sd, wr⟩ := c
  cases sd with
  | nil => rfl
  | cons o rest => cases o <;> rfl

theorem listLoop_written (ps : List (Option Regexp)) :
    ∀ (fuel : Nat) (f : Bool) (rd : List Char) (c : Conn)
      (st : Bool × List Char × Conn),
      ReadUntilRegexListLoop ps fuel (f, rd, c) = some st →
      st.2.2.written = c.written := by
  intro fuel
  induction fuel with
  | zero =>
    intro f rd c st h
    simp only [ReadUntilRegexListLoop, Option.some.injEq] at h
    rw [← h]
  | succ n ih =>
    intro f rd c st h
    rw [ReadUntilRegexListLoop] at h
    cases f with
    | true =>
      simp only [if_true, Option.some.injEq] at h
      rw [← h]
    | false =>
      simp only [Bool.false_eq_true, if_false] at h
      cases hscan : scanPatterns ps (false, rd, c.Buffer) with
      | none => rw [hscan] at h; cases h
      | some st2 =>
        obtain ⟨f2, rd2, b2⟩ := st2
        rw [hscan] at h
        cases f2 with
        | true =>
          simp only [if_true] at h
          have := ih true rd2 { c with Buffer := b2 } st h
          simpa using this
        | false =>
          simp only [Bool.false_eq_true, if_false] at h
          have := ih false rd2 (GetData { c with Buffer := b2 }) st h
          rw [this, GetData_written]

theorem finishRead_written (st : Bool × List Char × Conn) :
    (finishRead st).2.2.written = st.2.2.written := by
  obtain ⟨f, rd, c⟩ := st
  by_cases h : rd = [] <;> simp [finishRead, h]

/-- With a successful `Connect`, `SendCommand` writes the command and reads
until the prompt regexp, discarding the read's error. -/
theorem sendCommand_eq (a : SSHAgent) (command : List Char)
    (h : (Connect a).2 = none) :
    SendCommand a command =
      ({ (Connect a).1 with
          conn := (ReadUntilRegex (Connect a).1.promptRegex
            (Connect a).1.Timeout
            (Write (Connect a).1.conn command)).2.2 },
        (ReadUntilRegex (Connect a).1.promptRegex (Connect a).1.Timeout
          (Write (Connect a).1.conn command)).1, none) := by
  rcases hcn : Connect a with ⟨a2, e⟩
  rw [hcn] at h
  simp only at h
  subst h
  rw [SendCommand, SendCommandNoWait, hcn]

theorem take_ne_nil_of_pos (l : List Char) (k : Nat) (hk : 0 < k)
    (hle : k ≤ l.length) : l.take k ≠ [] := by
  intro hcontra
  have hlen := congrArg List.length hcontra
  simp only [List.length_take, List.length_nil] at hlen
  omega

theorem listLoop_found_fix (ps : List (Option Regexp)) (m : Nat)
    (rd : List Char) (c : Conn) :
    ReadUntilRegexListLoop ps m (true, rd, c) = some (true, rd, c) := by
  cases m <;> simp [ReadUntilRegexListLoop]

/-! ## Claim theorems -/

/-- C1, counterexample: on buffer `ab` with literal target `a`, `ReadUntil`
returns the matched prefix `a` but leaves `ab` — the remainder starting at
the match's start index — in the buffer, so prefix ++ remainder is `aab`,
not the original buffer `ab`: bytes are duplicated, refuting the exact
prefix/remainder accounting. -/
theorem readUntil_partition_counterexample :
    (ReadUntil ['a'] 1 ⟨['a', 'b'], [], []⟩).1 = ['a'] ∧
    (ReadUntil ['a'] 1 ⟨['a', 'b'], [], []⟩).2.2.Buffer = ['a', 'b'] ∧
    (ReadUntil ['a'] 1 ⟨['a', 'b'], [], []⟩).1 ++
        (ReadUntil ['a'] 1 ⟨['a', 'b'], [], []⟩).2.2.Buffer ≠ ['a', 'b'] := by
  decide

/-- C2, counterexample: with the pattern list `[a, b]` (both literals) and
buffer `ab`, both patterns match on the same poll, yet the call reports `b`'s
match — the text up to `b`'s match end in the buffer left after `a`'s
consumption — not `a`'s prefix `a`: the earlier-indexed pattern does not
always win. -/
theorem readUntilRegexList_order_counterexample :
    ReadUntilRegexList [some (litRe ['a']), some (litRe ['b'])] 1
        ⟨['a', 'b'], [], []⟩ =
      some (['b'], none, ⟨[], [], []⟩) ∧
    (['b'] : List Char) ≠ ['a'] := by
  decide

/-- C2, amended: on a poll where pattern `A` (list `[A, B]`) matches with end
offset `ea`, the scan does not stop: `B` is then evaluated against the buffer
remaining after `A`'s consumption, `Buffer[ea:]`.  If `B` matches there (with
positive end offset `eb`), `B`'s result supersedes `A`'s and the call returns
the remainder's prefix `Buffer[ea:][0:eb]` — not `A`'s prefix.  `A`'s match is
reported only when `B` fails to match the post-`A` remainder. -/
theorem readUntilRegexList_order_amended (A B : Regexp) (fuel : Nat) (c : Conn)
    (sa ea : Nat) (hfuel : 0 < fuel) (hA : A.find c.Buffer = some (sa, ea)) :
    (∀ sb eb, B.find (c.Buffer.drop ea) = some (sb, eb) → 0 < eb →
      eb ≤ (c.Buffer.drop ea).length →
      ReadUntilRegexList [some A, some B] fuel c =
        some ((c.Buffer.drop ea).take eb, none,
          { c with Buffer := (c.Buffer.drop ea).drop eb })) ∧
    (B.find (c.Buffer.drop ea) = none → 0 < ea → ea ≤ c.Buffer.length →
      ReadUntilRegexList [some A, some B] fuel c =
        some (c.Buffer.take ea, none, { c with Buffer := c.Buffer.drop ea })) := by
  obtain ⟨n, rfl⟩ : ∃ n, fuel = n + 1 := ⟨fuel - 1, by omega⟩
  have hmA : A.MatchString c.Buffer = true := by
    simp [Regexp.MatchString, hA]
  constructor
  · intro sb eb hB hpos hle
    have hmB : B.MatchString (c.Buffer.drop ea) = true := by
      simp [Regexp.MatchString, hB]
    have hscan : scanPatterns [some A, some B] (false, [], c.Buffer) =
        some (true, (c.Buffer.drop ea).take eb, (c.Buffer.drop ea).drop eb) := by
      simp [scanPatterns, hmA, hmB, hA, hB]
    have hloop : ReadUntilRegexListLoop [some A, some B] (n + 1)
        (false, [], c) =
        some (true, (c.Buffer.drop ea).take eb,
          { c with Buffer := (c.Buffer.drop ea).drop eb }) := by
      rw [ReadUntilRegexListLoop]
      simp [hscan, listLoop_found_fix]
    have hne : (c.Buffer.drop ea).take eb ≠ [] := take_ne_nil_of_pos _ _ hpos hle
    simp only [ReadUntilRegexList]
    rw [hloop]
    simp [finishRead, hne]
  · intro hB hpos hle
    have hmB : B.MatchString (c.Buffer.drop ea) = false := by
      simp [Regexp.MatchString, hB]
    have hscan : scanPatterns [some A, some B] (false, [], c.Buffer) =
        some (true, c.Buffer.take ea, c.Buffer.drop ea) := by
      simp [scanPatterns, hmA, hmB, hA]
    have hloop : ReadUntilRegexListLoop [some A, some B] (n + 1)
        (false, [], c) =
        some (true, c.Buffer.take ea, { c with Buffer := c.Buffer.drop ea }) := by
      rw [ReadUntilRegexListLoop]
      simp [hscan, listLoop_found_fix]
    have hne : c.Buffer.take ea ≠ [] := take_ne_nil_of_pos _ _ hpos hle
    simp only [ReadUntilRegexList]
    rw [hloop]
    simp [finishRead, hne]

/-- C2, witness: with list `[a, b]` on buffer `axb`, `a` matches ending at 1
and `b` matches the remainder `xb`, so `b`'s text `xb` is returned; with list
`[a, q]` on buffer `ax`, `q` does not match the remainder `x`, so `a`'s
prefix `a` is returned. -/
theorem readUntilRegexList_order_amended_witness :
    ReadUntilRegexList [some (litRe ['a']), some (litRe ['b'])] 1
        ⟨['a', 'x', 'b'], [], []⟩ =
      some (['x', 'b'], none, ⟨[], [], []⟩) ∧
    ReadUntilRegexList [some (litRe ['a']), some (litRe ['q'])] 1
        ⟨['a', 'x'], [], []⟩ =
      some (['a'], none, ⟨['x'], [], []⟩) :=
  ⟨(readUntilRegexList_order_amended (litRe ['a']) (litRe ['b']) 1
      ⟨['a', 'x', 'b'], [], []⟩ 0 1 (by decide) (by decide)).1 1 2 (by decide)
      (by decide) (by decide),
   (readUntilRegexList_order_amended (litRe ['a']) (litRe ['q']) 1
      ⟨['a', 'x'], [], []⟩ 0 1 (by decide) (by decide)).2 (by decide)
      (by decide) (by decide)⟩

/-- C3: the compile loop of `ReadUntilRegexList` discards the error of an
invalid pattern but appends the resulting nil `*Regexp` anyway; the scan loop
then calls `MatchString` on it and panics (modelled by the `none` result).
With patterns `[a, (]` on buffer `xyz` the call faults, whereas the same call
with only the valid pattern `a` runs to its timeout and returns the buffer
with `ErrNoMatch` — the invalid pattern is not skipped. -/
theorem readUntilRegexList_nil_pattern_bug :
    ReadUntilRegexList [some (litRe ['a']), none] 1 ⟨['x', 'y', 'z'], [], []⟩ =
      none ∧
    ReadUntilRegexList [some (litRe ['a'])] 1 ⟨['x', 'y', 'z'], [], []⟩ =
      some (['x', 'y', 'z'], some SshErr.noMatch, ⟨[], [], []⟩) := by
  decide

/-- C5, counterexample: with the compiled pattern `a*` (first match empty, at
offset zero) and buffer `bc`, `ReadUntilRegex` does not return
`Buffer[0:matchEnd] = ""` leaving `bc`; the empty `returnData` triggers the
drain epilogue, so the whole buffer `bc` is returned and the buffer is
cleared. -/
theorem readUntilRegex_emptyMatch_counterexample :
    ReadUntilRegex (some aStar) 1 ⟨['b', 'c'], [], []⟩ =
      (['b', 'c'], none, ⟨[], [], []⟩) ∧
    (['b', 'c'] : List Char) ≠ [] := by
  decide

/-- C6: `ReadUntilRegex` on a pattern that failed to compile returns the
`InvalidPattern` error at once — for every fuel (time budget) and every
connection state, without entering the poll loop — and the connection,
its buffer included, is left exactly as it was. -/
theorem readUntilRegex_invalid_fails_fast (fuel : Nat) (c : Conn) :
    ReadUntilRegex none fuel c = ([], some SshErr.invalidPattern, c) :=
  rfl

/-- C1, amended: when the buffer contains the nonempty literal target, whose
first occurrence starts at index `i`, `ReadUntil` returns the matched prefix
`Buffer[0 : i + len(target)]` but leaves `Buffer[i:]` — the suffix from the
match's start, not its end — in the buffer; so the part of the buffer before
the match plus the remainder reassembles the original buffer, while the
matched target bytes appear both in the returned prefix and in the remaining
buffer. -/
theorem readUntil_match_amended (target : List Char) (fuel : Nat) (c : Conn)
    (i : Nat) (htarget : target ≠ []) (hfuel : 0 < fuel)
    (hidx : strIndex c.Buffer target = some i) :
    ReadUntil target fuel c =
      (c.Buffer.take (i + target.length), none,
        { c with Buffer := c.Buffer.drop i }) ∧
    c.Buffer.take i ++ c.Buffer.drop i = c.Buffer := by
  obtain ⟨n, rfl⟩ : ∃ n, fuel = n + 1 := ⟨fuel - 1, by omega⟩
  have hcon : containsStr c.Buffer target = true := by
    simp [containsStr, hidx]
  have hloop : ReadUntilLoop target (n + 1) c =
      (true, c.Buffer.take (i + target.length),
        { c with Buffer := c.Buffer.drop i }) := by
    simp [ReadUntilLoop, hcon, hidx]
  have hlen : i + target.length ≤ c.Buffer.length := strIndex_bound _ _ _ hidx
  have htl : 0 < target.length := List.length_pos.mpr htarget
  have hne : c.Buffer.take (i + target.length) ≠ [] := by
    have htk : (c.Buffer.take (i + target.length)).length = i + target.length := by
      simp only [List.length_take]
      omega
    intro hcontra
    rw [hcontra] at htk
    simp only [List.length_nil] at htk
    omega
  constructor
  · rw [ReadUntil, hloop]
    simp [finishRead, hne]
  · exact List.take_append_drop i c.Buffer

/-- C1, witness: `ReadUntil` on buffer `xay` with target `a` (first occurrence
at index 1). -/
theorem readUntil_match_amended_witness :
    ReadUntil ['a'] 1 ⟨['x', 'a', 'y'], [], []⟩ =
      (['x', 'a'], none, ⟨['a', 'y'], [], []⟩) ∧
    (['x'] : List Char) ++ ['a', 'y'] = ['x', 'a', 'y'] :=
  readUntil_match_amended ['a'] 1 ⟨['x', 'a', 'y'], [], []⟩ 1 (by decide)
    (by decide) (by decide)

/-- C5, amended: when the compiled pattern's first match in the buffer has a
positive end offset `me`, `ReadUntilRegex` returns exactly `Buffer[0:me]`,
leaves exactly `Buffer[me:]`, reports success, and prefix plus remainder is
the buffer before the call.  (When the match ends at offset 0 the whole
buffer is returned instead — see the counterexample and C10.) -/
theorem readUntilRegex_match_amended (cmpRe : Regexp) (fuel : Nat) (c : Conn)
    (ms me : Nat) (hfuel : 0 < fuel)
    (hfind : cmpRe.find c.Buffer = some (ms, me))
    (hpos : 0 < me) (hle : me ≤ c.Buffer.length) :
    ReadUntilRegex (some cmpRe) fuel c =
      (c.Buffer.take me, none, { c with Buffer := c.Buffer.drop me }) ∧
    c.Buffer.take me ++ c.Buffer.drop me = c.Buffer := by
  obtain ⟨n, rfl⟩ : ∃ n, fuel = n + 1 := ⟨fuel - 1, by omega⟩
  have hm : cmpRe.MatchString c.Buffer = true := by
    simp [Regexp.MatchString, hfind]
  have hloop : ReadUntilRegexLoop cmpRe (n + 1) c =
      (true, c.Buffer.take me, { c with Buffer := c.Buffer.drop me }) := by
    simp [ReadUntilRegexLoop, hm, hfind]
  have hne : c.Buffer.take me ≠ [] := by
    have htk : (c.Buffer.take me).length = me := by
      simp only [List.length_take]
      omega
    intro hcontra
    rw [hcontra] at htk
    simp only [List.length_nil] at htk
    omega
  constructor
  · simp only [ReadUntilRegex]
    rw [hloop]
    simp [finishRead, hne]
  · exact List.take_append_drop me c.Buffer

/-- C5, witness: the literal pattern `b` on buffer `ab` matches with span
(1, 2), so the call consumes the whole buffer `ab` and leaves nothing. -/
theorem readUntilRegex_match_amended_witness :
    ReadUntilRegex (some (litRe ['b'])) 1 ⟨['a', 'b'], [], []⟩ =
      (['a', 'b'], none, ⟨[], [], []⟩) ∧
    (['a', 'b'] : List Char) ++ [] = ['a', 'b'] :=
  readUntilRegex_match_amended (litRe ['b']) 1 ⟨['a', 'b'], [], []⟩ 1 2
    (by decide) (by decide) (by decide) (by decide)

/-- C10: when the computed matched prefix is empty — `ReadUntil` with the
empty literal target, or `ReadUntilRegex` when the pattern's first match is
empty at offset zero — the call returns the entire current buffer, clears the
buffer, and reports success (no `ErrNoMatch`). -/
theorem emptyMatch_returns_whole_buffer :
    (∀ (fuel : Nat) (c : Conn), 0 < fuel →
      ReadUntil [] fuel c =
        (c.Buffer, none, { c with Buffer := ([] : List Char) })) ∧
    (∀ (cmpRe : Regexp) (fuel : Nat) (c : Conn), 0 < fuel →
      cmpRe.find c.Buffer = some (0, 0) →
      ReadUntilRegex (some cmpRe) fuel c =
        (c.Buffer, none, { c with Buffer := ([] : List Char) })) := by
  constructor
  · intro fuel c hfuel
    obtain ⟨n, rfl⟩ : ∃ n, fuel = n + 1 := ⟨fuel - 1, by omega⟩
    obtain ⟨buf, sd, wr⟩ := c
    have hcon : containsStr buf [] = true := by
      simp [containsStr, strIndex_nil_sub]
    have hloop : ReadUntilLoop [] (n + 1) ⟨buf, sd, wr⟩ =
        (true, [], ⟨buf, sd, wr⟩) := by
      simp [ReadUntilLoop, hcon, strIndex_nil_sub]
    rw [ReadUntil, hloop]
    simp [finishRead]
  · intro cmpRe fuel c hfuel hfind
    obtain ⟨n, rfl⟩ : ∃ n, fuel = n + 1 := ⟨fuel - 1, by omega⟩
    obtain ⟨buf, sd, wr⟩ := c
    have hfind2 : cmpRe.find buf = some (0, 0) := hfind
    have hm : cmpRe.MatchString buf = true := by
      simp [Regexp.MatchString, hfind2]
    have hloop : ReadUntilRegexLoop cmpRe (n + 1) ⟨buf, sd, wr⟩ =
        (true, [], ⟨buf, sd, wr⟩) := by
      simp [ReadUntilRegexLoop, hm, hfind2]
    simp only [ReadUntilRegex]
    rw [hloop]
    simp [finishRead]

/-- C10, witness: the empty literal on buffer `hi`, and the pattern `a*`
(empty match at offset zero) on buffer `z`: both return the whole buffer with
success and clear it. -/
theorem emptyMatch_returns_whole_buffer_witness :
    ReadUntil [] 1 ⟨['h', 'i'], [], []⟩ = (['h', 'i'], none, ⟨[], [], []⟩) ∧
    ReadUntilRegex (some aStar) 1 ⟨['z'], [], []⟩ =
      (['z'], none, ⟨[], [], []⟩) :=
  ⟨emptyMatch_returns_whole_buffer.1 1 ⟨['h', 'i'], [], []⟩ (by decide),
   emptyMatch_returns_whole_buffer.2 aStar 1 ⟨['z'], [], []⟩ (by decide)
     (by decide)⟩

/-- C4: for each of the three read calls, when the poll loop exhausts its
time budget without a match having occurred, the call returns exactly the
whole buffer content at expiry together with `ErrNoMatch`, and the buffer is
empty afterwards. -/
theorem readTimeout_drains :
    (∀ (str : List Char) (fuel : Nat) (c : Conn),
      (ReadUntilLoop str fuel c).1 = false →
      ReadUntil str fuel c =
        ((ReadUntilLoop str fuel c).2.2.Buffer, some SshErr.noMatch,
          { (ReadUntilLoop str fuel c).2.2 with Buffer := ([] : List Char) })) ∧
    (∀ (cmpRe : Regexp) (fuel : Nat) (c : Conn),
      (ReadUntilRegexLoop cmpRe fuel c).1 = false →
      ReadUntilRegex (some cmpRe) fuel c =
        ((ReadUntilRegexLoop cmpRe fuel c).2.2.Buffer, some SshErr.noMatch,
          { (ReadUntilRegexLoop cmpRe fuel c).2.2 with
              Buffer := ([] : List Char) })) ∧
    (∀ (cmpReList : List (Option Regexp)) (fuel : Nat) (c : Conn) (f : Bool)
       (rd : List Char) (c2 : Conn),
      ReadUntilRegexListLoop cmpReList fuel (false, [], c) = some (f, rd, c2) →
      f = false →
      ReadUntilRegexList cmpReList fuel c =
        some (c2.Buffer, some SshErr.noMatch,
          { c2 with Buffer := ([] : List Char) })) := by
  refine ⟨?_, ?_, ?_⟩
  · intro str fuel c h
    have hrd := readUntilLoop_not_found str fuel c h
    rcases hst : ReadUntilLoop str fuel c with ⟨f, rd, c2⟩
    rw [hst] at h hrd
    simp only at h hrd
    subst h hrd
    rw [ReadUntil, hst]
    simp [finishRead]
  · intro cmpRe fuel c h
    have hrd := readUntilRegexLoop_not_found cmpRe fuel c h
    rcases hst : ReadUntilRegexLoop cmpRe fuel c with ⟨f, rd, c2⟩
    rw [hst] at h hrd
    simp only at h hrd
    subst h hrd
    simp only [ReadUntilRegex]
    rw [hst]
    simp [finishRead]
  · intro cmpReList fuel c f rd c2 h hf
    have hrd := listLoop_not_found cmpReList fuel c f rd c2 h hf
    subst hf hrd
    simp only [ReadUntilRegexList]
    rw [h]
    simp [finishRead]

/-- C4, witness: a target / pattern / pattern list absent from the data, a
two-poll budget, and a chunk `z` arriving after the first poll: each call
drains the arrived data, returns the whole buffer `xyz` with `ErrNoMatch`,
and the buffer is empty afterwards. -/
theorem readTimeout_drains_witness :
    ReadUntil ['q'] 2 ⟨['x', 'y'], [some ['z']], []⟩ =
      (['x', 'y', 'z'], some SshErr.noMatch, ⟨[], [], []⟩) ∧
    ReadUntilRegex (some (litRe ['q'])) 2 ⟨['x', 'y'], [some ['z']], []⟩ =
      (['x', 'y', 'z'], some SshErr.noMatch, ⟨[], [], []⟩) ∧
    ReadUntilRegexList [some (litRe ['q'])] 2 ⟨['x', 'y'], [some ['z']], []⟩ =
      some (['x', 'y', 'z'], some SshErr.noMatch, ⟨[], [], []⟩) :=
  ⟨readTimeout_drains.1 ['q'] 2 ⟨['x', 'y'], [some ['z']], []⟩ (by decide),
   readTimeout_drains.2.1 (litRe ['q']) 2 ⟨['x', 'y'], [some ['z']], []⟩
     (by decide),
   readTimeout_drains.2.2 [some (litRe ['q'])] 2 ⟨['x', 'y'], [some ['z']], []⟩
     false [] ⟨['x', 'y', 'z'], [], []⟩ (by decide) rfl⟩

/-- C7: on a connected agent, `SendCommandWaitForList` behaves exactly as:
write the command followed by a newline, then perform the list read with the
caller's patterns in their given order and the session's prompt pattern
appended as the last element; whenever the call returns, the bytes written
are the prior writes plus `command + "\n"`. -/
theorem sendCommandWaitForList_appends_prompt (a : SSHAgent)
    (command : List Char) (regexList : List (Option Regexp))
    (h : a.Connected = true) :
    SendCommandWaitForList a command regexList =
      (ReadUntilRegexList (regexList ++ [a.promptRegex]) a.Timeout
        (Write a.conn command)).map
        (fun r => ({ a with conn := r.2.2 }, r.1, r.2.1)) ∧
    ∀ r, SendCommandWaitForList a command regexList = some r →
      r.1.conn.written = a.conn.written ++ (command ++ ['\n']) := by
  have hcn : Connect a = (a, none) := by
    rw [Connect]
    simp [h]
  have hnw : SendCommandNoWait a command =
      ({ a with conn := Write a.conn command }, none) := by
    rw [SendCommandNoWait, hcn]
  have hmain : SendCommandWaitForList a command regexList =
      (ReadUntilRegexList (regexList ++ [a.promptRegex]) a.Timeout
        (Write a.conn command)).map
        (fun r => ({ a with conn := r.2.2 }, r.1, r.2.1)) := by
    simp only [SendCommandWaitForList, hnw]
    cases hread : ReadUntilRegexList (regexList ++ [a.promptRegex]) a.Timeout
        (Write a.conn command) with
    | none => rfl
    | some r => obtain ⟨out, err, c2⟩ := r; rfl
  refine ⟨hmain, ?_⟩
  intro r hr
  rw [hmain] at hr
  cases hread : ReadUntilRegexList (regexList ++ [a.promptRegex]) a.Timeout
      (Write a.conn command) with
  | none => rw [hread] at hr; cases hr
  | some q =>
    rw [hread, Option.map_some', Option.some.injEq] at hr
    rw [ReadUntilRegexList] at hread
    cases hloop : ReadUntilRegexListLoop (regexList ++ [a.promptRegex])
        a.Timeout (false, [], Write a.conn command) with
    | none => rw [hloop] at hread; cases hread
    | some st =>
      rw [hloop, Option.map_some', Option.some.injEq] at hread
      have hw1 : q.2.2.written = st.2.2.written := by
        rw [← hread, finishRead_written]
      have hw2 : st.2.2.written = (Write a.conn command).written :=
        listLoop_written _ _ _ _ _ _ hloop
      have hw3 : (Write a.conn command).written =
          a.conn.written ++ (command ++ ['\n']) := by
        rw [Write]
        simp [List.append_assoc]
      rw [← hr]
      simp only
      rw [hw1, hw2, hw3]

/-- C7, witness: a connected agent with prompt regexp the literal `$` and
buffer `ok$`; with caller pattern the literal `%` the call reads with
`[%, $]`, matches the prompt, returns `ok$`, and has written `ls\n`. -/
theorem sendCommandWaitForList_appends_prompt_witness :
    SendCommandWaitForList agentW ['l', 's'] [some (litRe ['%'])] =
      (ReadUntilRegexList ([some (litRe ['%'])] ++ [agentW.promptRegex])
        agentW.Timeout (Write agentW.conn ['l', 's'])).map
        (fun r => ({ agentW with conn := r.2.2 }, r.1, r.2.1)) ∧
    (({ agentW with conn := ⟨[], [], ['l', 's', '\n']⟩ }, ['o', 'k', '$'],
        (none : Option SshErr)) : SSHAgent × List Char × Option SshErr).1.conn.written =
      agentW.conn.written ++ (['l', 's'] ++ ['\n']) :=
  ⟨(sendCommandWaitForList_appends_prompt agentW ['l', 's']
      [some (litRe ['%'])] rfl).1,
   (sendCommandWaitForList_appends_prompt agentW ['l', 's']
      [some (litRe ['%'])] rfl).2
     ({ agentW with conn := ⟨[], [], ['l', 's', '\n']⟩ }, ['o', 'k', '$'], none)
     rfl⟩

/-- C9: whenever `Connect` succeeds (the agent is already connected, or the
reconnection attempt succeeds), `SendCommand` returns a `nil` error, and its
output is whatever text the prompt read returned — its error, `ErrNoMatch`
included, is discarded. -/
theorem sendCommand_discards_read_error (a : SSHAgent) (command : List Char)
    (h : (Connect a).2 = none) :
    (SendCommand a command).2.2 = none ∧
    (SendCommand a command).2.1 =
      (ReadUntilRegex (Connect a).1.promptRegex (Connect a).1.Timeout
        (Write (Connect a).1.conn command)).1 := by
  rw [sendCommand_eq a command h]
  exact ⟨rfl, rfl⟩

/-- C9, witness: a disconnected agent whose reconnection succeeds and whose
buffer `abc` contains no prompt: the read expires with `ErrNoMatch`, yet
`SendCommand` returns the partial output `abc` with a `nil` error. -/
theorem sendCommand_discards_read_error_witness :
    (ReadUntilRegex agentReconn.promptRegex 1
        (Write ⟨['a', 'b', 'c'], [], []⟩ ['l', 's'])).2.1 =
      some SshErr.noMatch ∧
    (SendCommand agentReconn ['l', 's']).2.2 = none ∧
    (SendCommand agentReconn ['l', 's']).2.1 =
      (ReadUntilRegex (Connect agentReconn).1.promptRegex
        (Connect agentReconn).1.Timeout
        (Write (Connect agentReconn).1.conn ['l', 's'])).1 :=
  ⟨by decide,
   (sendCommand_discards_read_error agentReconn ['l', 's'] rfl).1,
   (sendCommand_discards_read_error agentReconn ['l', 's'] rfl).2⟩

theorem splitNl_ne_nil (l : List Char) : splitNl l ≠ [] := by
  cases l with
  | nil => simp [splitNl]
  | cons ch s =>
    rw [splitNl]
    by_cases h : ch = '\n'
    · simp [h]
    · simp only [h, if_false]
      cases splitNl s <;> simp

theorem splitNl_head : ∀ l : List Char, (splitNl l).headD [] = firstLine l := by
  intro l
  induction l with
  | nil => rfl
  | cons ch s ih =>
    rw [splitNl, firstLine]
    by_cases h : ch = '\n'
    · simp [h]
    · simp only [h, if_false]
      cases hs : splitNl s with
      | nil => exact absurd hs (splitNl_ne_nil s)
      | cons l0 ls =>
        rw [hs] at ih
        simp only [List.headD_cons] at ih ⊢
        rw [ih]

theorem joinNl_splitNl : ∀ l : List Char, joinNl (splitNl l) = l := by
  intro l
  induction l with
  | nil => rfl
  | cons ch s ih =>
    rw [splitNl]
    by_cases h : ch = '\n'
    · subst h
      rw [if_pos rfl]
      cases hs : splitNl s with
      | nil => exact absurd hs (splitNl_ne_nil s)
      | cons l0 ls =>
        rw [hs] at ih
        show [] ++ '\n' :: joinNl (l0 :: ls) = '\n' :: s
        rw [ih]
        rfl
    · rw [if_neg h]
      cases hs : splitNl s with
      | nil => exact absurd hs (splitNl_ne_nil s)
      | cons l0 ls =>
        rw [hs] at ih
        cases ls with
        | nil =>
          show ch :: l0 = ch :: s
          have e2 : joinNl [l0] = l0 := rfl
          rw [e2] at ih
          rw [ih]
        | cons l1 ls1 =>
          show (ch :: l0) ++ '\n' :: joinNl (l1 :: ls1) = ch :: s
          have e2 : joinNl (l0 :: l1 :: ls1) =
              l0 ++ '\n' :: joinNl (l1 :: ls1) := rfl
          rw [e2] at ih
          rw [List.cons_append, ih]

theorem joinNl_tail :
    ∀ l : List Char,
      joinNl (splitNl l).tail = l.drop ((firstLine l).length + 1) := by
  intro l
  induction l with
  | nil => rfl
  | cons ch s ih =>
    rw [splitNl, firstLine]
    by_cases h : ch = '\n'
    · subst h
      rw [if_pos rfl, if_pos rfl]
      simp only [List.tail_cons, List.length_nil]
      simpa using joinNl_splitNl s
    · rw [if_neg h, if_neg h]
      cases hs : splitNl s with
      | nil => exact absurd hs (splitNl_ne_nil s)
      | cons l0 ls =>
        rw [hs] at ih
        show joinNl ls = (ch :: s).drop ((ch :: firstLine s).length + 1)
        simp only [List.tail_cons] at ih
        rw [ih]
        simp [List.length_cons, List.drop_succ_cons]

/-- C8: on a connected agent, `SendCommandStripCommand` returns the
`SendCommand` output with its first line (and its trailing newline) removed
when that first line contains the command text, and the output unchanged
otherwise, where a line boundary is the newline character; the returned
error is `nil`. -/
theorem sendCommandStripCommand_strips (a : SSHAgent) (command : List Char)
    (h : a.Connected = true) :
    (SendCommandStripCommand a command).2.1 =
      (if containsStr (firstLine (SendCommand a command).2.1) command = true
       then (SendCommand a command).2.1.drop
         ((firstLine (SendCommand a command).2.1).length + 1)
       else (SendCommand a command).2.1) ∧
    (SendCommandStripCommand a command).2.2 = none := by
  have hcn : Connect a = (a, none) := by
    rw [Connect]
    simp [h]
  have hsc2 : SendCommand a command =
      ({ a with conn := (ReadUntilRegex a.promptRegex a.Timeout
          (Write a.conn command)).2.2 },
        (ReadUntilRegex a.promptRegex a.Timeout (Write a.conn command)).1,
        none) := by
    rw [SendCommand, SendCommandNoWait, hcn]
  generalize hout : (ReadUntilRegex a.promptRegex a.Timeout
      (Write a.conn command)).1 = out at hsc2
  simp only [SendCommandStripCommand, hsc2]
  cases hs : splitNl out with
  | nil => exact absurd hs (splitNl_ne_nil out)
  | cons l0 rest =>
    have hl0 : l0 = firstLine out := by
      have hh := splitNl_head out
      rw [hs] at hh
      simpa using hh
    have hjoin : joinNl rest = out.drop ((firstLine out).length + 1) := by
      have hh := joinNl_tail out
      rw [hs] at hh
      simpa using hh
    subst hl0
    by_cases hc : containsStr (firstLine out) command = true
    · simp [hc, hjoin]
    · simp [hc]

/-- C8, witness: a connected agent whose buffer holds the echoed command line
`ls`, a newline, then `f$`: the prompt read returns the whole text, the first
line `ls` contains the command `ls`, and the stripped output is `f$` with a
`nil` error. -/
theorem sendCommandStripCommand_strips_witness :
    (SendCommandStripCommand agentEcho ['l', 's']).2.1 = ['f', '$'] ∧
    (SendCommandStripCommand agentEcho ['l', 's']).2.2 = none :=
  sendCommandStripCommand_strips agentEcho ['l', 's'] rfl

end SshLib
